import Mathlib

/-!
Verification of the Agentic-AI-Pipeline repository.

Shallow embedding of the Python sources:
  * `Agentic-Coding-Pipeline/pipeline.py` (`AgenticCodingPipeline.run`)
  * `Agentic-Coding-Pipeline/services.py` (`run_pipeline_stream`)
  * `Agentic-RAG-Pipeline/services.py` (`run_rag_stream`)
  * `Agentic-RAG-Pipeline/graph/orchestrator.py` (`_dedupe_evidence`, `Orchestrator.answer`)
  * `Agentic-RAG-Pipeline/agents/retrieval_planner.py` (`RetrievalPlannerAgent.run`)
  * `Agentic-RAG-Pipeline/agents/writer.py` (`WriterAgent.run`)
  * `src/agentic_ai/layers/reasoning.py` (`reflect_node`, `route_from_reflect`)
  * `src/agentic_ai/infra/trace.py` (`RunTracer._redact_sensitive_data`)
  * `src/agentic_ai/infra/rate_limit.py` (`allow`)
-/

namespace ACP

/-- Values stored in the pipeline's state dict.  `undef` models an absent
key; Python truthiness is modelled by `truthy`. -/
inductive Val where
  | undef
  | str (s : String)
  | boolean (b : Bool)
deriving DecidableEq

/-- Python truthiness of a state value: an absent key and the empty string
are falsy, a boolean is itself. -/
def truthy : Val → Bool
  | .undef => false
  | .str s => !s.isEmpty
  | .boolean b => b

/-- The pipeline state dict, `state: Dict[str, object]`, as a total map
with `undef` for absent keys. -/
def PState := String → Val

/-- Assignment `state[k] = v`. -/
def PState.set (st : PState) (k : String) (v : Val) : PState :=
  fun k' => if k' = k then v else st k'

/-- Lookup `state.get(k, d)`. -/
def PState.getD (st : PState) (k : String) (d : Val) : Val :=
  match st k with
  | .undef => d
  | v => v

/-- Python `state.setdefault(k, v)`. -/
def PState.setdefault (st : PState) (k : String) (v : Val) : PState :=
  match st k with
  | .undef => st.set k v
  | _ => st

/-- An agent is its `run` method: a state transformer. -/
def Agent := PState → PState

/-- Sequential invocation of a list of agents. -/
def foldAgents (as : List Agent) (st : PState) : PState :=
  as.foldl (fun s a => a s) st

/-- The coder loop of `AgenticCodingPipeline.run` (pipeline.py lines 23-29):
invoke each coder in order; immediately after a coder whose run leaves
`proposed_code` falsy, set `status=failed`, `reason="coder did not return
code"` and return (`Sum.inl`); otherwise fall through (`Sum.inr`). -/
def runCodersLoop : List Agent → PState → PState ⊕ PState
  | [], st => .inr st
  | c :: rest, st =>
    let st1 := c st
    if truthy (st1 "proposed_code") then runCodersLoop rest st1
    else .inl ((st1.set "status" (.str "failed")).set "reason"
        (.str "coder did not return code"))

/-- The common shape of the tester and reviewer loops of `run`: invoke
each agent; on the first agent whose run leaves `key` falsy, set
`feedback` from `out` (default `""`) and report `false`. -/
def runCheckLoop (key out : String) : List Agent → PState → PState × Bool
  | [], st => (st, true)
  | t :: rest, st =>
    let st1 := t st
    if truthy (st1 key) then runCheckLoop key out rest st1
    else (st1.set "feedback" (st1.getD out (.str "")), false)

/-- The tester loop: checks `tests_passed`, feedback from `test_output`. -/
def runTestersLoop : List Agent → PState → PState × Bool :=
  runCheckLoop "tests_passed" "test_output"

/-- The reviewer loop: checks `qa_passed`, feedback from `qa_output`. -/
def runReviewersLoop : List Agent → PState → PState × Bool :=
  runCheckLoop "qa_passed" "qa_output"

/-- The `AgenticCodingPipeline` dataclass. -/
structure AgenticCodingPipeline where
  coders : List Agent
  formatters : List Agent
  testers : List Agent
  reviewers : List Agent
  max_iterations : Nat

/-- The iteration loop of `run`: on exhaustion `state.setdefault("status",
"failed")`; otherwise coders (early failure return), formatters, testers
(continue on failure), reviewers (continue on failure, `completed` return
on success). -/
def runIter (p : AgenticCodingPipeline) : Nat → PState → PState
  | 0, st => st.setdefault "status" (.str "failed")
  | n + 1, st =>
    match runCodersLoop p.coders st with
    | .inl stf => stf
    | .inr st1 =>
      let st2 := foldAgents p.formatters st1
      match runTestersLoop p.testers st2 with
      | (st3, false) => runIter p n st3
      | (st3, true) =>
        match runReviewersLoop p.reviewers st3 with
        | (st4, true) => st4.set "status" (.str "completed")
        | (st4, false) => runIter p n st4

/-- The all-absent initial state. -/
def emptyState : PState := fun _ => Val.undef

/-- The method `AgenticCodingPipeline.run(task)`. -/
def AgenticCodingPipeline.run (p : AgenticCodingPipeline) (task : String) : PState :=
  runIter p p.max_iterations (emptyState.set "task" (.str task))

/-- Every agent in `as`, invoked in sequence from `st`, leaves `key`
truthy immediately after its own run. -/
def allPass (key : String) (as : List Agent) (st : PState) : Prop :=
  ∀ pre a post, as = pre ++ a :: post →
    truthy ((foldAgents (pre ++ [a]) st) key) = true

/-- The agent never changes the value stored at `key`. -/
def preservesKey (key : String) (a : Agent) : Prop :=
  ∀ st, (a st) key = st key

/-- A coder that proposes code but also writes `status="completed"` into
the shared state dict (the `run` contract does not forbid this). -/
def statusWritingCoder : Agent :=
  fun st => (st.set "proposed_code" (.str "x")).set "status" (.str "completed")

/-- A tester that reports failing tests. -/
def failingTester : Agent := fun st => st.set "tests_passed" (.boolean false)

/-- Pipeline exercising the exhaustion path with a leaked `status`. -/
def pipeC1 : AgenticCodingPipeline := ⟨[statusWritingCoder], [], [failingTester], [], 1⟩

/-- A coder whose run leaves the state unchanged (no code proposed). -/
def noopCoder : Agent := fun st => st

/-- A coder that proposes code. -/
def codeCoder : Agent := fun st => st.set "proposed_code" (.str "x")

/-- Two coders: the first returns no code, the second would. -/
def pipeC3 : AgenticCodingPipeline := ⟨[noopCoder, codeCoder], [], [], [], 3⟩

/-- A tester that reports passing tests. -/
def okTester : Agent := fun st => st.set "tests_passed" (.boolean true)

/-- A reviewer that reports passing QA. -/
def okReviewer : Agent := fun st => st.set "qa_passed" (.boolean true)

/-- A well-behaved one-coder, one-tester, one-reviewer pipeline. -/
def pipeOK : AgenticCodingPipeline := ⟨[codeCoder], [], [okTester], [okReviewer], 3⟩

end ACP

namespace Pystr

/-- Python `s.startswith(pat)` on character lists: `startsL pat cs` is true
when `cs` begins with `pat`. -/
def startsL : List Char → List Char → Bool
  | [], _ => true
  | _ :: _, [] => false
  | p :: ps, c :: cs => p == c && startsL ps cs

/-- Python `pat in s` on character lists (substring containment). -/
def containsSub (pat : List Char) : List Char → Bool
  | [] => startsL pat []
  | c :: cs => startsL pat (c :: cs) || containsSub pat cs

/-- Python `str.strip()`: drop whitespace from both ends. -/
def pyStrip (s : String) : String :=
  ⟨((s.data.dropWhile Char.isWhitespace).reverse.dropWhile
    Char.isWhitespace).reverse⟩

/-- Python `s.startswith(pat)`. -/
def pyStartsWith (s pat : String) : Bool := startsL pat.data s.data

/-- The characters after the first `':'`, or `none` when there is none. -/
def afterColonL : List Char → Option (List Char)
  | [] => none
  | c :: cs => if c = ':' then some cs else afterColonL cs

/-- Python `s.split(":", 1)[-1]`: the text after the first colon, the
whole string when no colon occurs. -/
def pyAfterFirstColon (s : String) : String := ⟨(afterColonL s.data).getD s.data⟩

/-- Python `str.lower()`. -/
def pyLower (s : String) : String := ⟨s.data.map Char.toLower⟩

end Pystr

namespace RAG

/-- One evidence entry as consumed by `_dedupe_evidence`: only the fields
entering the identity key, plus the payload text.  `uri` is `meta.uri`
(`none` when the meta dict has no `uri`). -/
structure Evidence where
  uri : Option String
  doc_id : Option String
  chunk_id : Option String
  text : String
deriving DecidableEq

/-- The identity key of `_dedupe_evidence`:
`(e.get("meta", {}).get("uri") or e.get("doc_id"), e.get("chunk_id"))`.
Python `or` falls back to `doc_id` when `uri` is `None` or empty. -/
def evKey (e : Evidence) : Option String × Option String :=
  (match e.uri with
   | some s => if s.isEmpty then e.doc_id else some s
   | none => e.doc_id,
   e.chunk_id)

/-- Loop body of `_dedupe_evidence`: `seen` set, `out` accumulator, and
the `break` once `len(out) >= max_len` (checked after appending). -/
def dedupeGo (cap : Nat) :
    List Evidence → List (Option String × Option String) → List Evidence →
    List Evidence
  | [], _, out => out
  | e :: rest, seen, out =>
    if evKey e ∈ seen then dedupeGo cap rest seen out
    else
      let out' := out ++ [e]
      if cap ≤ out'.length then out'
      else dedupeGo cap rest (evKey e :: seen) out'

/-- The function `_dedupe_evidence(ev, max_len)`. -/
def dedupeEvidence (ev : List Evidence) (cap : Nat) : List Evidence :=
  dedupeGo cap ev [] []

/-- Modelled from the spec: the uncapped "first occurrence wins" filter,
used to state what `_dedupe_evidence` refines. -/
def firstOccur : List Evidence → List (Option String × Option String) →
    List Evidence
  | [], _ => []
  | e :: rest, seen =>
    if evKey e ∈ seen then firstOccur rest seen
    else e :: firstOccur rest (evKey e :: seen)

/-- The inputs that determine the citations list computed by
`Orchestrator.answer`: the evidence gathered per sub-task, the writer's
first verdict, the critic's verdict, and the evidence added by the
critic's follow-up retrievals. -/
structure AnswerRun where
  subtaskEvidence : List (List Evidence)
  writerOk : Bool
  criticOk : Bool
  hasFollowups : Bool
  followupEvidence : List Evidence

/-- The evidence data flow of `Orchestrator.answer`: per-subtask dedupe
with cap 20, global dedupe with cap 50, and — only when the writer said
`ok`, the critic did not, and follow-up queries exist — one more dedupe
with cap 60 after extending with the follow-up evidence.  The function
returns the `citations` list of the result. -/
def answerCitations (r : AnswerRun) : List Evidence :=
  let all := (r.subtaskEvidence.map (fun l => dedupeEvidence l 20)).flatten
  let all := dedupeEvidence all 50
  if r.writerOk && (!r.criticOk && r.hasFollowups) then
    dedupeEvidence (all ++ r.followupEvidence) 60
  else all

/-- What `safe_json_loads` handed `RetrievalPlannerAgent.run`: `none`
models a falsy parse result. -/
structure ParsedPlan where
  queries : Option (List String)
  k : Option Int
deriving DecidableEq

/-- The plan returned by `RetrievalPlannerAgent.run`. -/
structure RetrievalPlan where
  queries : List String
  k : Int
deriving DecidableEq

/-- The method `RetrievalPlannerAgent.run(subgoal)` after the LLM call: fall back to
`{"queries": [subgoal], "k": 6}` on a falsy parse, repair a missing or
empty query list, and clamp `k` via `max(4, min(12, int(data.get("k",
6))))`. -/
def retrievalPlannerRun (subgoal : String) (parsed : Option ParsedPlan) :
    RetrievalPlan :=
  let data := match parsed with
    | some d => d
    | none => ⟨some [subgoal], some 6⟩
  let queries := match data.queries with
    | some qs => if qs.isEmpty then [subgoal] else qs
    | none => [subgoal]
  ⟨queries, max 4 (min 12 (data.k.getD 6))⟩

/-- The dict returned by `WriterAgent.run`. -/
structure WriterOutput where
  status : String
  draft : String
  missing : List String
deriving DecidableEq

/-- The method `WriterAgent.run` after the LLM call: `json.loads` success returns the
parsed data unchanged; on a parse failure the fallback
`{"status": "ok", "draft": txt.strip() or "No answer.", "missing": []}`
is returned. -/
def writerRun (txt : String) (parsed : Option WriterOutput) : WriterOutput :=
  match parsed with
  | some d => d
  | none =>
    ⟨"ok",
     if (Pystr.pyStrip txt).isEmpty then "No answer." else Pystr.pyStrip txt,
     []⟩

/-- Sample evidence: identified by its uri. -/
def ev1 : Evidence := ⟨some "u", none, some "c1", "t1"⟩

/-- Sample evidence: no uri, identified by doc_id. -/
def ev2 : Evidence := ⟨none, some "d", some "c2", "t2"⟩

/-- Sample evidence sharing `ev1`'s identity key under a different text. -/
def ev3 : Evidence := ⟨some "u", some "ddd", some "c1", "t3"⟩

end RAG

namespace Reason

/-- The part of the LangGraph agent state that `reflect_node` and
`route_from_reflect` read and write. -/
structure ReflectState where
  messages : List String
  done : Bool
  next_action : Option String
deriving DecidableEq

/-- The node `reflect_node` on the model output `txt` (reasoning.py lines 337-358):
strip the text; if it starts with `BRIEFING`, append it as an assistant
message and set `done = True`; otherwise set `next_action` from the text
after the first colon, stripped and lowercased. -/
def reflect_node (txt : String) (st : ReflectState) : ReflectState :=
  let t := Pystr.pyStrip txt
  if Pystr.pyStartsWith t "BRIEFING" then
    { st with messages := st.messages ++ [t], done := true }
  else
    let next := Pystr.pyLower (Pystr.pyStrip (Pystr.pyAfterFirstColon t))
    { st with next_action := some next }

/-- Routing `route_from_reflect`: `"finalize" if state.get("done") else
"decide"`. -/
def route_from_reflect (st : ReflectState) : String :=
  if st.done then "finalize" else "decide"

end Reason

namespace Trace

/-- A value stored in a trace event's `data` dict. -/
inductive TVal where
  | str (s : String)
  | num (n : Int)
  | boolean (b : Bool)
deriving DecidableEq

/-- The `sensitive_keys` list of `RunTracer._redact_sensitive_data`. -/
def sensitive_keys : List String :=
  ["api_key", "token", "password", "authorization", "cookie"]

/-- The check `any(pattern in key.lower() for pattern in sensitive_keys)`. -/
def matchesSensitive (key : String) : Bool :=
  sensitive_keys.any (fun pat => Pystr.containsSub pat.data (Pystr.pyLower key).data)

/-- The truncation pass: a string longer than the cap becomes
`value[:cap] + f"...[TRUNCATED:{len(value)} chars]"`. -/
def truncateVal (cap : Nat) (v : TVal) : TVal :=
  match v with
  | .str s =>
    if cap < s.data.length then
      .str ((⟨s.data.take cap⟩ : String) ++ "...[TRUNCATED:" ++
        Nat.repr s.data.length ++ " chars]")
    else v
  | _ => v

/-- Per-entry effect of `_redact_sensitive_data`: sensitive keys get the
sentinel, then overlong strings are truncated. -/
def redactEntry (cap : Nat) (kv : String × TVal) : String × TVal :=
  (kv.1, truncateVal cap (if matchesSensitive kv.1 then TVal.str "[REDACTED]" else kv.2))

/-- The method `RunTracer._redact_sensitive_data(data)` with content cap `cap`
(`settings.TRACE_MAX_CONTENT_LENGTH`, default 2000). -/
def redact_sensitive_data (cap : Nat) (data : List (String × TVal)) :
    List (String × TVal) :=
  data.map (redactEntry cap)

end Trace

namespace RL

/-- Constant `RATE = 5` (tokens per refill). -/
def RATE : Int := 5

/-- Constant `PER_SECONDS = 10` (refill window). -/
def PER_SECONDS : ℚ := 10

/-- Python `int()` truncation toward zero on a rational. -/
def pyInt (q : ℚ) : Int := if 0 ≤ q then ⌊q⌋ else -⌊-q⌋

/-- One chat's bucket in `_BUCKETS`: `(last_refill, tokens)`. -/
structure Bucket where
  last : ℚ
  tokens : Int
deriving DecidableEq

/-- The function `allow(chat_id)` acting on that chat's bucket at wall-clock time
`now` (rate_limit.py lines 10-19): refill
`min(RATE, tokens + int((now - last) / PER_SECONDS) * RATE)`, store the
new timestamp unconditionally, deny when no token is left. -/
def allow (b : Bucket) (now : ℚ) : Bucket × Bool :=
  let new_tokens := min RATE (b.tokens + pyInt ((now - b.last) / PER_SECONDS) * RATE)
  if new_tokens ≤ 0 then (⟨now, new_tokens⟩, false)
  else (⟨now, new_tokens - 1⟩, true)

/-- A sequence of `allow` calls at the given times, returning the final
bucket and the per-call results. -/
def allowCalls (b : Bucket) : List ℚ → Bucket × List Bool
  | [] => (b, [])
  | t :: ts =>
    let r := allow b t
    let rest := allowCalls r.1 ts
    (rest.1, r.2 :: rest.2)

end RL

namespace Streams

/-- The `RepoContext` dataclass (path `none` when no repo was prepared). -/
structure RepoContext where
  path : Option String
  summary : String

/-- The `TaskContext` dataclass. -/
structure TaskContext where
  source : String
  title : String
  description : String

/-- A JSON value appearing in a `done` payload. -/
inductive JVal where
  | str (s : String)
  | boolean (b : Bool)
  | null
  | obj (fields : List (String × JVal))

/-- The data of one SSE event: free text for `log`/`answer`/`sources`,
the structured payload for `done` (the Python side JSON-encodes it). -/
inductive EventData where
  | text (s : String)
  | json (payload : List (String × JVal))

/-- One `(event, data)` tuple yielded by a stream. -/
structure StreamEvent where
  event : String
  data : EventData

/-- A `("log", s)` event. -/
def logEv (s : String) : StreamEvent := ⟨"log", .text s⟩

/-- Python `str(value)` for a pipeline state value. -/
def pyStr : ACP.Val → String
  | .str s => s
  | .boolean true => "True"
  | .boolean false => "False"
  | .undef => "None"

/-- A state value as it lands in the JSON payload. -/
def toJVal : ACP.Val → JVal
  | .str s => .str s
  | .boolean b => .boolean b
  | .undef => .null

/-- The value `result.get("status", "unknown")` as a JSON value. -/
def statusJ (result : ACP.PState) : JVal :=
  match result "status" with
  | .undef => .str "unknown"
  | v => toJVal v

/-- The first truthy of `test_output`, `qa_output`, `feedback` in the
pipeline result, as a string (`""` if none). -/
def feedbackOf (result : ACP.PState) : String :=
  match ["test_output", "qa_output", "feedback"].find?
      (fun k => ACP.truthy (result k)) with
  | some k => pyStr (result k)
  | none => ""

/-- The snippet `description[:200] + ('...' if len(description) > 200 else '')`. -/
def descSnippet (d : String) : String :=
  (⟨d.data.take 200⟩ : String) ++ (if 200 < d.data.length then "..." else "")

/-- The `done` payload of `run_pipeline_stream`. -/
def pipelinePayload (repo : RepoContext) (tsk : TaskContext)
    (result : ACP.PState) : List (String × JVal) :=
  [("status", statusJ result),
   ("repo", .obj [("path", match repo.path with
                   | some p => .str p
                   | none => .null),
                  ("summary", .str repo.summary)]),
   ("task", .obj [("source", .str tsk.source),
                  ("title", .str tsk.title),
                  ("description", .str tsk.description)])]

/-- The texts of the `log` events emitted by `run_pipeline_stream` before
`done` (services.py lines 312-366), given the analyzed repo, the resolved
task and the pipeline result. -/
def pipelineLogStrings (repo : RepoContext) (tsk : TaskContext)
    (result : ACP.PState) : List String :=
  ["Starting pipeline...\n"] ++
  (match repo.path with
   | some p => ["Repo prepared: " ++ p ++ "\n"]
   | none => ["Repo note: " ++ repo.summary ++ "\n"]) ++
  ["Task source: " ++ tsk.source ++ "\n"] ++
  (if tsk.title.isEmpty then [] else ["Title: " ++ tsk.title ++ "\n"]) ++
  (if tsk.description.isEmpty then []
   else ["Description: " ++ descSnippet tsk.description ++ "\n"]) ++
  ["Running agents (coding → format → tests → QA)...\n",
   "Status: " ++ pyStr (ACP.PState.getD result "status" (.str "unknown")) ++ "\n"] ++
  (if (feedbackOf result).isEmpty then []
   else ["Feedback:\n" ++ feedbackOf result ++ "\n"])

/-- The `log` events emitted by `run_pipeline_stream` before `done`. -/
def pipelineLogs (repo : RepoContext) (tsk : TaskContext)
    (result : ACP.PState) : List StreamEvent :=
  (pipelineLogStrings repo tsk result).map logEv

/-- The full event stream of `run_pipeline_stream`. -/
def run_pipeline_stream (repo : RepoContext) (tsk : TaskContext)
    (result : ACP.PState) : List StreamEvent :=
  pipelineLogs repo tsk result ++
    [⟨"done", .json (pipelinePayload repo tsk result)⟩]

/-- The `done` payload of `run_rag_stream`: `{"ok": True, "session_id":
session_id}`. -/
def ragPayload (session_id : String) : List (String × JVal) :=
  [("ok", .boolean true), ("session_id", .str session_id)]

/-- The full event stream of `run_rag_stream` (RAG services.py lines
78-94), given the answer and the JSON-encoded citations produced by
`ask`. -/
def run_rag_stream (session_id : String) (answer citesJson : String) :
    List StreamEvent :=
  [logEv "Planning and retrieving evidence...\n",
   ⟨"answer", .text (Pystr.pyStrip answer)⟩,
   ⟨"sources", .text citesJson⟩,
   ⟨"done", .json (ragPayload session_id)⟩]

/-- Is this a `done` event? -/
def isDone (e : StreamEvent) : Bool := e.event == "done"

/-- Look up a key in a JSON payload. -/
def lookupKey (k : String) (fields : List (String × JVal)) : Option JVal :=
  (fields.find? (fun kv => kv.1 == k)).map (fun kv => kv.2)

end Streams


namespace ACP

theorem set_apply (st : PState) (k v k') :
    (st.set k v) k' = if k' = k then v else st k' := rfl

theorem foldAgents_nil (st : PState) : foldAgents [] st = st := rfl

theorem foldAgents_cons (a : Agent) (as : List Agent) (st : PState) :
    foldAgents (a :: as) st = foldAgents as (a st) := rfl

theorem foldAgents_append (l₁ l₂ : List Agent) (st : PState) :
    foldAgents (l₁ ++ l₂) st = foldAgents l₂ (foldAgents l₁ st) := by
  simp [foldAgents, List.foldl_append]

theorem allPass_nil (key : String) (st : PState) : allPass key [] st := by
  intro pre a post h
  exact absurd h (by simp)

theorem allPass_cons (key : String) (a : Agent) (as : List Agent) (st : PState) :
    allPass key (a :: as) st ↔
      truthy ((a st) key) = true ∧ allPass key as (a st) := by
  constructor
  · intro h
    refine ⟨?_, ?_⟩
    · have := h [] a as rfl
      simpa [foldAgents] using this
    · intro pre b post hsplit
      have := h (a :: pre) b post (by simp [hsplit])
      simpa [foldAgents_cons] using this
  · rintro ⟨h1, h2⟩ pre b post hsplit
    cases pre with
    | nil =>
      cases hsplit
      simpa [foldAgents] using h1
    | cons c pre' =>
      injection hsplit with hhead htail
      subst hhead
      have := h2 pre' b post (by simpa using htail)
      simpa [foldAgents_cons] using this

theorem foldAgents_preserves (key : String) (as : List Agent)
    (h : ∀ a ∈ as, preservesKey key a) (st : PState) :
    (foldAgents as st) key = st key := by
  induction as generalizing st with
  | nil => rfl
  | cons a rest ih =>
    rw [foldAgents_cons, ih (fun b hb => h b (List.mem_cons_of_mem a hb))]
    exact h a (List.mem_cons_self a rest) st

theorem runCheckLoop_fst_preserves (key out k : String)
    (hk1 : k ≠ "feedback")
    (as : List Agent) (h : ∀ a ∈ as, preservesKey k a) (st : PState) :
    ((runCheckLoop key out as st).1) k = st k := by
  induction as generalizing st with
  | nil => rfl
  | cons a rest ih =>
    simp only [runCheckLoop]
    split
    · rw [ih (fun b hb => h b (List.mem_cons_of_mem a hb))]
      exact h a (List.mem_cons_self a rest) st
    · change ((a st).set "feedback" ((a st).getD out (Val.str ""))) k = st k
      rw [set_apply, if_neg hk1]
      exact h a (List.mem_cons_self a rest) st

theorem runCheckLoop_true_char (key out : String) (as : List Agent)
    (st st' : PState) (h : runCheckLoop key out as st = (st', true)) :
    st' = foldAgents as st ∧ allPass key as st := by
  induction as generalizing st with
  | nil =>
    simp only [runCheckLoop] at h
    injection h with h1 h2
    exact ⟨h1.symm, allPass_nil key st⟩
  | cons a rest ih =>
    simp only [runCheckLoop] at h
    split at h
    · rcases ih (a st) h with ⟨h1, h2⟩
      refine ⟨by simpa [foldAgents_cons] using h1, ?_⟩
      rw [allPass_cons]
      exact ⟨by assumption, h2⟩
    · exact absurd (congrArg Prod.snd h) (by simp)

theorem runCodersLoop_inl_status (cs : List Agent) (st stf : PState)
    (h : runCodersLoop cs st = .inl stf) :
    stf "status" = Val.str "failed" ∧
      stf "reason" = Val.str "coder did not return code" := by
  induction cs generalizing st with
  | nil => simp [runCodersLoop] at h
  | cons c rest ih =>
    simp only [runCodersLoop] at h
    split at h
    · exact ih (c st) h
    · cases h
      constructor
      · rw [set_apply, if_neg (by decide), set_apply, if_pos rfl]
      · rw [set_apply, if_pos rfl]

theorem runCodersLoop_inr_preserves (k : String) (cs : List Agent)
    (h : ∀ a ∈ cs, preservesKey k a) (st st1 : PState)
    (hr : runCodersLoop cs st = .inr st1) : st1 k = st k := by
  induction cs generalizing st with
  | nil =>
    simp only [runCodersLoop] at hr
    cases hr; rfl
  | cons c rest ih =>
    simp only [runCodersLoop] at hr
    split at hr
    · rw [ih (fun b hb => h b (List.mem_cons_of_mem c hb)) (c st) hr]
      exact h c (List.mem_cons_self c rest) st
    · cases hr

theorem runIter_completed (p : AgenticCodingPipeline)
    (hpres : ∀ a ∈ p.coders ++ p.formatters ++ p.testers ++ p.reviewers,
      preservesKey "status" a) :
    ∀ (n : Nat) (st : PState), st "status" = Val.undef →
    (runIter p n st) "status" = Val.str "completed" →
    ∃ st0 : PState, allPass "tests_passed" p.testers st0 ∧
      allPass "qa_passed" p.reviewers (foldAgents p.testers st0) := by
  have hco : ∀ a ∈ p.coders, preservesKey "status" a :=
    fun a ha => hpres a (by simp [ha])
  have hfo : ∀ a ∈ p.formatters, preservesKey "status" a :=
    fun a ha => hpres a (by simp [ha])
  have hte : ∀ a ∈ p.testers, preservesKey "status" a :=
    fun a ha => hpres a (by simp [ha])
  have hre : ∀ a ∈ p.reviewers, preservesKey "status" a :=
    fun a ha => hpres a (by simp [ha])
  intro n
  induction n with
  | zero =>
    intro st hu hc
    exfalso
    simp only [runIter, PState.setdefault, hu] at hc
    rw [set_apply, if_pos rfl] at hc
    exact absurd (Val.str.inj hc) (by decide)
  | succ n ih =>
    intro st hu hc
    simp only [runIter] at hc
    cases hcl : runCodersLoop p.coders st with
    | inl stf =>
      rw [hcl] at hc
      simp only [] at hc
      have := (runCodersLoop_inl_status p.coders st stf hcl).1
      rw [this] at hc
      exact absurd (Val.str.inj hc) (by decide)
    | inr st1 =>
      rw [hcl] at hc
      simp only [] at hc
      have hst1 : st1 "status" = Val.undef :=
        (runCodersLoop_inr_preserves "status" p.coders hco st st1 hcl).trans hu
      have hst2 : (foldAgents p.formatters st1) "status" = Val.undef :=
        (foldAgents_preserves "status" p.formatters hfo st1).trans hst1
      cases hts : runTestersLoop p.testers (foldAgents p.formatters st1) with
      | mk st3 b =>
        rw [hts] at hc
        have hst3 : st3 "status" = Val.undef := by
          have := runCheckLoop_fst_preserves "tests_passed" "test_output"
            "status" (by decide) p.testers hte (foldAgents p.formatters st1)
          rw [runTestersLoop] at hts
          rw [hts] at this
          exact this.trans hst2
        cases b with
        | false =>
          simp only [] at hc
          exact ih st3 hst3 hc
        | true =>
          simp only [] at hc
          cases hrv : runReviewersLoop p.reviewers st3 with
          | mk st4 b2 =>
            rw [hrv] at hc
            have hst4 : st4 "status" = Val.undef := by
              have := runCheckLoop_fst_preserves "qa_passed" "qa_output"
                "status" (by decide) p.reviewers hre st3
              rw [runReviewersLoop] at hrv
              rw [hrv] at this
              exact this.trans hst3
            cases b2 with
            | false =>
              simp only [] at hc
              exact ih st4 hst4 hc
            | true =>
              refine ⟨foldAgents p.formatters st1, ?_, ?_⟩
              · exact (runCheckLoop_true_char "tests_passed" "test_output"
                  p.testers (foldAgents p.formatters st1) st3 hts).2
              · have h3 := runCheckLoop_true_char "tests_passed" "test_output"
                  p.testers (foldAgents p.formatters st1) st3 hts
                have h4 := runCheckLoop_true_char "qa_passed" "qa_output"
                  p.reviewers st3 st4 hrv
                rw [← h3.1]
                exact h4.2

end ACP

namespace ACP

theorem set_preserves_of_ne (k key : String) (h : key ≠ k) (v : Val) :
    preservesKey key (fun st => st.set k v) := by
  intro st
  show (st.set k v) key = st key
  rw [set_apply, if_neg h]

/-- C1 (amended): provided no agent writes the `status` key, whenever
`AgenticCodingPipeline.run(task)` returns a state with
`status = "completed"`, there is a state from which, in the final
iteration, every tester in the list was invoked in order and left
`tests_passed` truthy, and from the resulting state every reviewer was
invoked in order and left `qa_passed` truthy. -/
theorem run_completed_testers_reviewers_passed
    (p : AgenticCodingPipeline) (task : String)
    (hpres : ∀ a ∈ p.coders ++ p.formatters ++ p.testers ++ p.reviewers,
      preservesKey "status" a)
    (hc : (p.run task) "status" = Val.str "completed") :
    ∃ st0 : PState, allPass "tests_passed" p.testers st0 ∧
      allPass "qa_passed" p.reviewers (foldAgents p.testers st0) := by
  have hinit : (emptyState.set "task" (.str task)) "status" = Val.undef := by
    rw [set_apply, if_neg (by decide)]
    rfl
  exact runIter_completed p hpres p.max_iterations _ hinit hc

/-- C1 counterexample: with a coder that writes `status="completed"` into
the state and a tester whose tests fail, `run` exhausts its iterations and
`setdefault` keeps the leaked `status`, so the returned state has
`status = "completed"` although the only tester, invoked in the final
iteration, left `tests_passed` false. -/
theorem run_completed_counterexample :
    (pipeC1.run "t") "status" = Val.str "completed" ∧
    (pipeC1.run "t") "tests_passed" = Val.boolean false ∧
    truthy ((failingTester (statusWritingCoder (emptyState.set "task"
      (.str "t")))) "tests_passed") = false :=
  ⟨rfl, rfl, rfl⟩

theorem run_completed_witness :
    ∃ st0 : PState, allPass "tests_passed" pipeOK.testers st0 ∧
      allPass "qa_passed" pipeOK.reviewers (foldAgents pipeOK.testers st0) :=
  run_completed_testers_reviewers_passed pipeOK "t"
    (by
      intro a ha
      have ha' : a = codeCoder ∨ a = okTester ∨ a = okReviewer := by
        simpa [pipeOK, or_assoc] using ha
      rcases ha' with rfl | rfl | rfl
      · exact set_preserves_of_ne "proposed_code" "status" (by decide) _
      · exact set_preserves_of_ne "tests_passed" "status" (by decide) _
      · exact set_preserves_of_ne "qa_passed" "status" (by decide) _)
    rfl

/-- C3 (amended): the coder loop of `run` returns the failure state
`{status: failed, reason: "coder did not return code"}` exactly when some
coder's run leaves `proposed_code` falsy; the decision is taken
immediately after the FIRST such coder (its predecessors all left
`proposed_code` truthy), and the returned state is built from the state
reached after invoking only that coder and its predecessors — the
remaining coders are not invoked. -/
theorem coder_failure_first_empty_char (cs : List Agent) (st stf : PState) :
    runCodersLoop cs st = .inl stf ↔
      ∃ pre a post, cs = pre ++ a :: post ∧
        allPass "proposed_code" pre st ∧
        truthy ((foldAgents (pre ++ [a]) st) "proposed_code") = false ∧
        stf = ((foldAgents (pre ++ [a]) st).set "status"
          (Val.str "failed")).set "reason"
          (Val.str "coder did not return code") := by
  induction cs generalizing st with
  | nil =>
    simp only [runCodersLoop]
    constructor
    · intro h; cases h
    · rintro ⟨pre, a, post, hsplit, -, -, -⟩
      exact absurd hsplit (by simp)
  | cons c rest ih =>
    simp only [runCodersLoop]
    split
    · rw [ih (c st)]
      constructor
      · rintro ⟨pre, a, post, hsplit, hall, hfalse, hstf⟩
        refine ⟨c :: pre, a, post, by simp [hsplit], ?_, ?_, ?_⟩
        · rw [allPass_cons]
          exact ⟨by assumption, hall⟩
        · simpa [foldAgents_cons] using hfalse
        · simpa [foldAgents_cons] using hstf
      · rintro ⟨pre, a, post, hsplit, hall, hfalse, hstf⟩
        cases pre with
        | nil =>
          injection hsplit with hhead htail
          subst hhead
          simp only [List.nil_append, foldAgents_cons, foldAgents_nil] at hfalse
          exact absurd hfalse (by simp_all)
        | cons c' pre' =>
          injection hsplit with hhead htail
          subst hhead
          rw [allPass_cons] at hall
          refine ⟨pre', a, post, by simpa using htail, hall.2, ?_, ?_⟩
          · simpa [foldAgents_cons] using hfalse
          · simpa [foldAgents_cons] using hstf
    · constructor
      · intro h
        injection h with h1
        refine ⟨[], c, rest, rfl, allPass_nil _ _, ?_, ?_⟩
        · simpa [foldAgents_cons, foldAgents_nil] using (by simp_all : truthy ((c st) "proposed_code") = false)
        · simp only [List.nil_append, foldAgents_cons, foldAgents_nil]
          exact h1.symm
      · rintro ⟨pre, a, post, hsplit, hall, hfalse, hstf⟩
        cases pre with
        | nil =>
          injection hsplit with hhead htail
          subst hhead
          subst htail
          simp only [List.nil_append, foldAgents_cons, foldAgents_nil] at hstf
          rw [hstf]
        | cons c' pre' =>
          injection hsplit with hhead htail
          subst hhead
          rw [allPass_cons] at hall
          exact absurd hall.1 (by simp_all)

/-- C3 counterexample: with coders `[noopCoder, codeCoder]`, the first
coder leaves `proposed_code` empty, and `run` returns the failure at once
— the second coder is never invoked (the returned state has no
`proposed_code`), even though running all coders in order would have left
`proposed_code` truthy. -/
theorem coder_failure_counterexample :
    (pipeC3.run "t") "status" = Val.str "failed" ∧
    (pipeC3.run "t") "reason" = Val.str "coder did not return code" ∧
    (pipeC3.run "t") "proposed_code" = Val.undef ∧
    truthy ((foldAgents [noopCoder, codeCoder] (emptyState.set "task"
      (.str "t"))) "proposed_code") = true :=
  ⟨rfl, rfl, rfl, rfl⟩

theorem coder_failure_witness :
    runCodersLoop [noopCoder] emptyState =
      .inl ((emptyState.set "status" (Val.str "failed")).set "reason"
        (Val.str "coder did not return code")) :=
  (coder_failure_first_empty_char [noopCoder] emptyState _).mpr
    ⟨[], noopCoder, [], rfl, allPass_nil _ _, rfl, rfl⟩

/-- C4 (amended): with `max_iterations = 0`, `run` returns immediately —
independently of the configured agents, none of which is invoked — a
state holding exactly `task` and `status = "failed"`; in particular no
`reason` key is set. -/
theorem run_zero_iterations (coders formatters testers reviewers : List Agent)
    (task key : String) :
    (AgenticCodingPipeline.run ⟨coders, formatters, testers, reviewers, 0⟩
        task) key =
      if key = "status" then Val.str "failed"
      else if key = "task" then Val.str task else Val.undef := rfl

/-- C4 counterexample: at `max_iterations = 0` the returned state has
`status = "failed"` but carries no `reason` key at all, contradicting the
claimed `reason = "no iterations"`. -/
theorem run_zero_iterations_counterexample :
    (AgenticCodingPipeline.run ⟨[], [], [], [], 0⟩ "t") "status" =
      Val.str "failed" ∧
    (AgenticCodingPipeline.run ⟨[], [], [], [], 0⟩ "t") "reason" =
      Val.undef :=
  ⟨rfl, rfl⟩

theorem run_zero_iterations_witness :
    (AgenticCodingPipeline.run ⟨[statusWritingCoder], [], [okTester], [],
        0⟩ "task text") "reason" = Val.undef :=
  run_zero_iterations [statusWritingCoder] [] [okTester] [] "task text" "reason"

end ACP

namespace RAG

theorem dedupeGo_eq (cap : Nat) :
    ∀ (ev : List Evidence) (seen : List (Option String × Option String))
      (out : List Evidence), out.length < cap →
      dedupeGo cap ev seen out =
        out ++ (firstOccur ev seen).take (cap - out.length) := by
  intro ev
  induction ev with
  | nil =>
    intro seen out h
    simp [dedupeGo, firstOccur]
  | cons e rest ih =>
    intro seen out h
    simp only [dedupeGo, firstOccur]
    by_cases hk : evKey e ∈ seen
    · rw [if_pos hk, if_pos hk, ih seen out h]
    · rw [if_neg hk, if_neg hk]
      by_cases hlen : cap ≤ (out ++ [e]).length
      · rw [if_pos hlen]
        have hc : cap - out.length = 1 := by
          simp only [List.length_append, List.length_singleton] at hlen
          omega
        rw [hc, List.take_succ_cons, List.take_zero]
      · rw [if_neg hlen]
        have hlt : (out ++ [e]).length < cap := by omega
        rw [ih _ _ hlt]
        have hc : cap - (out ++ [e]).length = cap - out.length - 1 := by
          simp only [List.length_append, List.length_singleton]
          omega
        have hsucc : cap - out.length = (cap - out.length - 1) + 1 := by
          simp only [List.length_append, List.length_singleton] at hlen
          omega
        rw [hc, hsucc, List.take_succ_cons]
        simp

theorem dedupeEvidence_eq_take (ev : List Evidence) (cap : Nat)
    (hcap : 1 ≤ cap) :
    dedupeEvidence ev cap = (firstOccur ev []).take cap := by
  have h := dedupeGo_eq cap ev [] [] (by simpa using hcap)
  simpa [dedupeEvidence] using h

theorem firstOccur_keys_nodup :
    ∀ (ev : List Evidence) (seen : List (Option String × Option String)),
      ((firstOccur ev seen).map evKey).Nodup ∧
      ∀ k ∈ (firstOccur ev seen).map evKey, k ∉ seen := by
  intro ev
  induction ev with
  | nil => intro seen; exact ⟨by simp [firstOccur], by simp [firstOccur]⟩
  | cons e rest ih =>
    intro seen
    simp only [firstOccur]
    by_cases hk : evKey e ∈ seen
    · rw [if_pos hk]; exact ih seen
    · rw [if_neg hk]
      obtain ⟨h1, h2⟩ := ih (evKey e :: seen)
      refine ⟨?_, ?_⟩
      · simp only [List.map_cons, List.nodup_cons]
        exact ⟨fun hmem => (h2 _ hmem) (List.mem_cons_self _ _), h1⟩
      · intro k hkmem
        simp only [List.map_cons, List.mem_cons] at hkmem
        rcases hkmem with rfl | hkmem
        · exact hk
        · exact fun hcontra => (h2 k hkmem) (List.mem_cons_of_mem _ hcontra)

theorem firstOccur_sublist :
    ∀ (ev : List Evidence) (seen : List (Option String × Option String)),
      (firstOccur ev seen).Sublist ev := by
  intro ev
  induction ev with
  | nil => intro seen; simp [firstOccur]
  | cons e rest ih =>
    intro seen
    simp only [firstOccur]
    by_cases hk : evKey e ∈ seen
    · rw [if_pos hk]
      exact (ih seen).trans (List.sublist_cons_self e rest)
    · rw [if_neg hk]
      exact List.Sublist.cons₂ e (ih (evKey e :: seen))

theorem dedupeEvidence_keys_nodup (ev : List Evidence) (cap : Nat)
    (hcap : 1 ≤ cap) : ((dedupeEvidence ev cap).map evKey).Nodup := by
  rw [dedupeEvidence_eq_take ev cap hcap, List.map_take]
  exact ((firstOccur_keys_nodup ev []).1).sublist (List.take_sublist _ _)

/-- C5: `_dedupe_evidence` is the stable first-occurrence filter truncated
to the cap: for any positive cap it equals `firstOccur` (first occurrence
of each identity key wins) cut to at most `cap` entries, is a sublist of
the input (order preserved), and its identity keys are pairwise distinct;
consequently, for every run of `Orchestrator.answer`, the returned
citations list contains no two entries with equal identity key. -/
theorem dedupe_evidence_spec (ev : List Evidence) (cap : Nat)
    (hcap : 1 ≤ cap) :
    dedupeEvidence ev cap = (firstOccur ev []).take cap ∧
    (dedupeEvidence ev cap).length ≤ cap ∧
    (dedupeEvidence ev cap).Sublist ev ∧
    ((dedupeEvidence ev cap).map evKey).Nodup ∧
    ∀ r : AnswerRun, ((answerCitations r).map evKey).Nodup := by
  refine ⟨dedupeEvidence_eq_take ev cap hcap, ?_, ?_, ?_, ?_⟩
  · rw [dedupeEvidence_eq_take ev cap hcap]
    exact (List.length_take _ _).le.trans (min_le_left _ _)
  · rw [dedupeEvidence_eq_take ev cap hcap]
    exact (List.take_sublist _ _).trans (firstOccur_sublist ev [])
  · exact dedupeEvidence_keys_nodup ev cap hcap
  · intro r
    unfold answerCitations
    by_cases hb : (r.writerOk && (!r.criticOk && r.hasFollowups)) = true
    · rw [if_pos hb]
      exact dedupeEvidence_keys_nodup _ 60 (by omega)
    · rw [if_neg hb]
      exact dedupeEvidence_keys_nodup _ 50 (by omega)

theorem dedupe_evidence_witness :
    dedupeEvidence [ev1, ev3, ev2] 2 = [ev1, ev2] := by
  have h := (dedupe_evidence_spec [ev1, ev3, ev2] 2 (by decide)).1
  rw [h]
  rfl

end RAG

namespace RAG

/-- C7: `RetrievalPlannerAgent.run` clamps the retrieval target into
`[4, 12]`: the returned `k` always lies in that range; whenever the model
proposed an integer `k`, the result is `max(4, min(12, k))`; in
particular a proposed `k = 0` yields 4 and a proposed `k = 100` yields
12. -/
theorem retrieval_planner_k_clamped (subgoal : String)
    (parsed : Option ParsedPlan) :
    4 ≤ (retrievalPlannerRun subgoal parsed).k ∧
    (retrievalPlannerRun subgoal parsed).k ≤ 12 ∧
    (∀ qs k, parsed = some ⟨qs, some k⟩ →
      (retrievalPlannerRun subgoal parsed).k = max 4 (min 12 k)) ∧
    (retrievalPlannerRun subgoal (some ⟨some [subgoal], some 0⟩)).k = 4 ∧
    (retrievalPlannerRun subgoal (some ⟨some [subgoal], some 100⟩)).k = 12 := by
  refine ⟨?_, ?_, ?_, ?_, ?_⟩
  · cases parsed with
    | none => simp [retrievalPlannerRun]
    | some d => simp [retrievalPlannerRun]
  · cases parsed with
    | none => simp [retrievalPlannerRun]
    | some d =>
      simp only [retrievalPlannerRun]
      omega
  · intro qs k h
    subst h
    simp [retrievalPlannerRun]
  · show max 4 (min 12 ((some (0:Int)).getD 6)) = 4
    decide
  · show max 4 (min 12 ((some (100:Int)).getD 6)) = 12
    decide

theorem retrieval_planner_witness :
    (retrievalPlannerRun "g" (some ⟨some ["a"], some 7⟩)).k =
      max 4 (min 12 7) :=
  (retrieval_planner_k_clamped "g" (some ⟨some ["a"], some 7⟩)).2.2.1
    (some ["a"]) 7 rfl

/-- C10: when the model text of `WriterAgent.run` fails to parse as JSON,
the returned dict is `{status: "ok", draft: txt.strip() or "No answer.",
missing: []}`; in particular its status is `"ok"`, never `"needs_more"`,
so an unparseable writer output is always treated as a final draft. -/
theorem writer_parse_failure_ok (txt : String) :
    (writerRun txt none).status = "ok" ∧
    (writerRun txt none).missing = [] ∧
    (writerRun txt none).draft =
      (if (Pystr.pyStrip txt).isEmpty then "No answer."
       else Pystr.pyStrip txt) ∧
    (writerRun txt none).status ≠ "needs_more" :=
  ⟨rfl, rfl, rfl, by exact (by decide : ("ok" : String) ≠ "needs_more")⟩

theorem writer_parse_failure_witness :
    (writerRun "  " none).draft =
      (if (Pystr.pyStrip "  ").isEmpty then "No answer."
       else Pystr.pyStrip "  ") :=
  (writer_parse_failure_ok "  ").2.2.1

end RAG

namespace Reason

/-- C6: in `reflect_node` the reflection is terminal exactly when the
stripped model output starts with `BRIEFING`: then the text is appended
as an assistant message and `done` is set; otherwise `done` and
`messages` are untouched and `next_action` is set to the text after the
first colon, stripped and lowercased.  `route_from_reflect` returns
`finalize` exactly when `done` is set, else `decide`. -/
theorem reflect_node_spec (txt : String) (st : ReflectState) :
    (Pystr.pyStartsWith (Pystr.pyStrip txt) "BRIEFING" = true →
      reflect_node txt st =
        { st with messages := st.messages ++ [Pystr.pyStrip txt],
                  done := true }) ∧
    (Pystr.pyStartsWith (Pystr.pyStrip txt) "BRIEFING" = false →
      (reflect_node txt st).done = st.done ∧
      (reflect_node txt st).messages = st.messages ∧
      (reflect_node txt st).next_action =
        some (Pystr.pyLower (Pystr.pyStrip
          (Pystr.pyAfterFirstColon (Pystr.pyStrip txt))))) ∧
    (route_from_reflect st = "finalize" ↔ st.done = true) := by
  refine ⟨fun h => ?_, fun h => ?_, ?_⟩
  · simp [reflect_node, h]
  · simp [reflect_node, h]
  · unfold route_from_reflect
    cases hd : st.done with
    | true => simp
    | false => exact iff_of_false (by simp) (by simp)

theorem reflect_node_witness :
    reflect_node "  BRIEFING: summary  " ⟨["note"], false, none⟩ =
      ⟨["note", "BRIEFING: summary"], true, none⟩ :=
  (reflect_node_spec "  BRIEFING: summary  " ⟨["note"], false, none⟩).1
    (by decide)

end Reason

namespace Trace

/-- C8 (amended): `_redact_sensitive_data` maps `redactEntry` over the
event data, preserving keys; a key containing (case-insensitively) one of
`api_key`, `token`, `password`, `authorization`, `cookie` has its value
replaced by the `[REDACTED]` sentinel (left intact by the truncation pass
whenever the cap is at least its 10 characters); a non-sensitive string
value longer than the cap is truncated to `value[:cap]` plus a
`...[TRUNCATED:{len} chars]` marker preserving the original length, and
one not longer than the cap is unchanged.  (`secret` is NOT among the
patterns.) -/
theorem redact_sensitive_data_spec (cap : Nat) (data : List (String × TVal)) :
    redact_sensitive_data cap data = data.map (redactEntry cap) ∧
    (redact_sensitive_data cap data).map Prod.fst = data.map Prod.fst ∧
    (∀ k v, matchesSensitive k = true → 10 ≤ cap →
      redactEntry cap (k, v) = (k, TVal.str "[REDACTED]")) ∧
    (∀ k (s : String), matchesSensitive k = false → s.data.length ≤ cap →
      redactEntry cap (k, TVal.str s) = (k, TVal.str s)) ∧
    (∀ k (s : String), matchesSensitive k = false → cap < s.data.length →
      redactEntry cap (k, TVal.str s) =
        (k, TVal.str ((⟨s.data.take cap⟩ : String) ++ "...[TRUNCATED:" ++
          Nat.repr s.data.length ++ " chars]"))) := by
  refine ⟨rfl, ?_, ?_, ?_, ?_⟩
  · rw [redact_sensitive_data, List.map_map]
    congr 1
  · intro k v hm hcap
    simp only [redactEntry, hm, if_true, truncateVal]
    rw [if_neg (Nat.not_lt.mpr (le_trans
      (by decide : ("[REDACTED]" : String).data.length ≤ 10) hcap))]
  · intro k s hm hle
    simp only [redactEntry, hm, Bool.false_eq_true, if_false, truncateVal]
    rw [if_neg (by omega)]
  · intro k s hm hlt
    simp only [redactEntry, hm, Bool.false_eq_true, if_false, truncateVal]
    rw [if_pos hlt]

/-- C8 counterexample: the key `client_secret` contains the substring
`secret` (case-insensitively), yet `_redact_sensitive_data` leaves its
value untouched — `secret` is not in the implemented pattern list. -/
theorem redact_secret_counterexample :
    Pystr.containsSub "secret".data (Pystr.pyLower "client_secret").data =
      true ∧
    redact_sensitive_data 2000 [("client_secret", TVal.str "hush")] =
      [("client_secret", TVal.str "hush")] := by
  constructor
  · decide
  · decide

theorem redact_sensitive_data_witness :
    redactEntry 2000 ("api_key", TVal.num 1) =
      ("api_key", TVal.str "[REDACTED]") :=
  (redact_sensitive_data_spec 2000 []).2.2.1 "api_key" (TVal.num 1)
    (by decide) (by decide)

end Trace

namespace RL

/-- C9: every `allow` call — granted or denied — stores the current time
as the bucket's `last_refill`; and once the bucket's token count is at or
below zero, any sequence of calls in which each call comes less than
`PER_SECONDS` after the previous one is denied in full: the integer
refill factor is always 0, so the bucket never refills under such
polling, no matter how much total time elapses. -/
theorem allow_denies_under_polling (b : Bucket) (times : List ℚ)
    (ht : b.tokens ≤ 0)
    (hchain : List.Chain (fun x y => x ≤ y ∧ y - x < PER_SECONDS)
      b.last times) :
    (∀ (bb : Bucket) (now : ℚ), ((allow bb now).1).last = now) ∧
    (allowCalls b times).2 = List.replicate times.length false := by
  constructor
  · intro bb now
    simp only [allow]
    split <;> rfl
  · induction times generalizing b with
    | nil => rfl
    | cons t ts ih =>
      rw [List.chain_cons] at hchain
      obtain ⟨⟨hle, hlt⟩, hchain'⟩ := hchain
      have hps : (0:ℚ) < PER_SECONDS := by norm_num [PER_SECONDS]
      have hq0 : (0:ℚ) ≤ (t - b.last) / PER_SECONDS :=
        div_nonneg (by linarith) hps.le
      have hq1 : (t - b.last) / PER_SECONDS < 1 := by
        rw [div_lt_one hps]
        linarith
      have hpy : pyInt ((t - b.last) / PER_SECONDS) = 0 := by
        unfold pyInt
        rw [if_pos hq0, Int.floor_eq_zero_iff.mpr (Set.mem_Ico.mpr ⟨hq0, hq1⟩)]
      have hnew : min RATE (b.tokens + pyInt ((t - b.last) / PER_SECONDS)
          * RATE) ≤ 0 := by
        rw [hpy]
        simp only [zero_mul, add_zero]
        exact le_trans (min_le_right _ _) ht
      have hstep : allow b t = (⟨t, min RATE (b.tokens +
          pyInt ((t - b.last) / PER_SECONDS) * RATE)⟩, false) := by
        simp only [allow]
        rw [if_pos hnew]
      simp only [allowCalls, hstep, List.length_cons, List.replicate_succ]
      refine congrArg (List.cons false) ?_
      exact ih ⟨t, _⟩ hnew (by simpa using hchain')

theorem allow_denies_witness :
    (allowCalls ⟨0, 0⟩ [0, 0]).2 = List.replicate 2 false :=
  (allow_denies_under_polling ⟨0, 0⟩ [0, 0] (by decide)
    (List.Chain.cons ⟨le_refl 0, by simp [PER_SECONDS]⟩
      (List.Chain.cons ⟨le_refl 0, by simp [PER_SECONDS]⟩
        List.Chain.nil))).2

end RL

namespace Streams

theorem pipelineLogs_all_log (repo : RepoContext) (tsk : TaskContext)
    (result : ACP.PState) :
    ∀ e ∈ pipelineLogs repo tsk result, e.event = "log" := by
  intro e he
  obtain ⟨s, -, rfl⟩ := List.mem_map.mp he
  rfl

theorem filter_isDone_append_done (l : List StreamEvent)
    (hl : ∀ e ∈ l, e.event = "log") (payload : List (String × JVal)) :
    (l ++ [StreamEvent.mk "done" (.json payload)]).filter isDone =
      [StreamEvent.mk "done" (.json payload)] := by
  rw [List.filter_append]
  have h1 : l.filter isDone = [] := by
    rw [List.filter_eq_nil_iff]
    intro e he
    rw [isDone, hl e he]
    decide
  rw [h1]
  rfl

theorem getLast_concat (l : List StreamEvent) (e : StreamEvent) :
    (l ++ [e]).getLast? = some e := by
  rw [List.getLast?_append_cons]
  rfl

/-- C2 (amended): both streams emit exactly one `done` event and it is
the final event of the stream.  The coding pipeline's `done` payload
carries a `status` key (from `result.get("status", "unknown")`); the RAG
stream's `done` payload is `{ok: true, session_id}` and carries NO
`status` key.  Neither function catches exceptions, so no failure `done`
is ever produced. -/
theorem streams_single_done (repo : RepoContext) (tsk : TaskContext)
    (result : ACP.PState) (sid ans cj : String) :
    (run_pipeline_stream repo tsk result).filter isDone =
      [⟨"done", .json (pipelinePayload repo tsk result)⟩] ∧
    (run_pipeline_stream repo tsk result).getLast? =
      some ⟨"done", .json (pipelinePayload repo tsk result)⟩ ∧
    lookupKey "status" (pipelinePayload repo tsk result) =
      some (statusJ result) ∧
    (run_rag_stream sid ans cj).filter isDone =
      [⟨"done", .json (ragPayload sid)⟩] ∧
    (run_rag_stream sid ans cj).getLast? =
      some ⟨"done", .json (ragPayload sid)⟩ ∧
    lookupKey "status" (ragPayload sid) = none ∧
    lookupKey "ok" (ragPayload sid) = some (.boolean true) ∧
    lookupKey "session_id" (ragPayload sid) = some (.str sid) := by
  refine ⟨?_, ?_, rfl, rfl, rfl, rfl, rfl, rfl⟩
  · exact filter_isDone_append_done _ (pipelineLogs_all_log repo tsk result) _
  · exact getLast_concat _ _

/-- C2 counterexample: the final `done` event of `run_rag_stream` carries
the payload `{ok: true, session_id}`, which has no `status` key. -/
theorem rag_done_no_status_counterexample :
    (run_rag_stream "s" "a" "[]").getLast? =
      some ⟨"done", .json (ragPayload "s")⟩ ∧
    lookupKey "status" (ragPayload "s") = none :=
  ⟨rfl, rfl⟩

theorem streams_single_done_witness :
    lookupKey "status"
        (pipelinePayload ⟨none, "sum"⟩ ⟨"text", "", ""⟩ ACP.emptyState) =
      some (statusJ ACP.emptyState) :=
  (streams_single_done ⟨none, "sum"⟩ ⟨"text", "", ""⟩ ACP.emptyState
    "s" "a" "[]").2.2.1

end Streams
